import Mathlib

/-!
Verification of the pngme chunk codec (`src/chunk_type.rs`, `src/chunk.rs`).

Bytes are modelled as `Nat` (with explicit `< 256` hypotheses where the Rust
type `u8` guarantees a bound), byte slices as `List Nat`, and `u32` arithmetic
as `Nat` arithmetic reduced modulo `2 ^ 32` exactly where the Rust code casts
or wraps.  Integer overflow of `u32` subtraction is modelled with wrapping
(release-profile) semantics.  Fallible Rust functions returning `Result`
are modelled with `Except`.
-/

namespace Pngme

/-- Rust `u8::is_ascii_alphabetic`: `A`–`Z` (65–90) or `a`–`z` (97–122). -/
def isAsciiAlphabetic (b : Nat) : Bool :=
  (65 ≤ b && b ≤ 90) || (97 ≤ b && b ≤ 122)

/-- Enum `ChunkTypeError` from `src/chunk_type.rs`. -/
inductive ChunkTypeError where
  | NotASCIILetters
  | InvalidNameLenght (expected : Nat) (actual : Nat)
deriving DecidableEq, Repr

/-- Struct `ChunkType` from `src/chunk_type.rs`: a wrapper around 4 bytes.
The Rust field has type `[u8; 4]`; we model it as a list (length 4 for
every value actually constructed by the Rust constructors). -/
structure ChunkType where
  bytes : List Nat
deriving DecidableEq, Repr

namespace ChunkType

/-- Constant `ChunkType::CHUNK_PROPERTY_SET_MASK = 1 << 5`. -/
def CHUNK_PROPERTY_SET_MASK : Nat := 1 <<< 5

/-- Function `ChunkType::bit_is_zero`. -/
def bit_is_zero (byte : Nat) : Bool :=
  byte &&& CHUNK_PROPERTY_SET_MASK == 0

/-- Rust `impl TryFrom<[u8; 4]> for ChunkType`: succeeds iff all bytes are
ASCII letters. -/
def try_from (value : List Nat) : Except ChunkTypeError ChunkType :=
  match value.all isAsciiAlphabetic with
  | true => .ok ⟨value⟩
  | false => .error .NotASCIILetters

/-- Accessor `ChunkType::is_critical`: bit 5 of byte 0 (`Ancillary`) is zero. -/
def is_critical (t : ChunkType) : Bool :=
  bit_is_zero (t.bytes.getD 0 0)

/-- Accessor `ChunkType::is_public`: bit 5 of byte 1 (`Private`) is zero. -/
def is_public (t : ChunkType) : Bool :=
  bit_is_zero (t.bytes.getD 1 0)

/-- Accessor `ChunkType::is_reserved_bit_valid`: bit 5 of byte 2 (`Reserved`) is zero. -/
def is_reserved_bit_valid (t : ChunkType) : Bool :=
  bit_is_zero (t.bytes.getD 2 0)

/-- Accessor `ChunkType::is_safe_to_copy`: bit 5 of byte 3 (`SafeToCopy`) is set. -/
def is_safe_to_copy (t : ChunkType) : Bool :=
  !bit_is_zero (t.bytes.getD 3 0)

/-- Accessor `ChunkType::is_valid`. -/
def is_valid (t : ChunkType) : Bool :=
  t.is_reserved_bit_valid

end ChunkType

/-- One step of the bit-reflected CRC-32 computation with (reversed)
polynomial `0xEDB88320` — the table-free form of the `CRC_32_ISO_HDLC`
algorithm used by the `crc` crate (init `0xFFFFFFFF`, reflected input and
output, final xor `0xFFFFFFFF`). -/
def crc32Bit (c : Nat) : Nat :=
  if c &&& 1 == 1 then (c >>> 1) ^^^ 0xEDB88320 else c >>> 1

/-- Absorb one byte into the running CRC state. -/
def crc32Byte (crc b : Nat) : Nat :=
  crc32Bit (crc32Bit (crc32Bit (crc32Bit
    (crc32Bit (crc32Bit (crc32Bit (crc32Bit (crc ^^^ b))))))))

/-- Rust `Crc::<u32>::new(&crc::CRC_32_ISO_HDLC).checksum(bytes)`. -/
def crc32 (bytes : List Nat) : Nat :=
  (bytes.foldl crc32Byte 0xFFFFFFFF) ^^^ 0xFFFFFFFF

/-- Struct `Chunk` from `src/chunk.rs`. -/
structure Chunk where
  data : List Nat
  chunk_type : ChunkType
  crc : Nat
deriving DecidableEq, Repr

/-- Rust `u32::to_be_bytes` (for any `Nat`, this encodes the value mod `2 ^ 32`). -/
def u32be (n : Nat) : List Nat :=
  [n / 2 ^ 24 % 256, n / 2 ^ 16 % 256, n / 2 ^ 8 % 256, n % 256]

/-- Rust `u32::from_be_bytes` applied to the first 4 elements of a list. -/
def u32beVal : List Nat → Nat
  | b0 :: b1 :: b2 :: b3 :: _ => ((b0 * 256 + b1) * 256 + b2) * 256 + b3
  | _ => 0

namespace Chunk

/-- Constructor `Chunk::new`: computes the CRC-32 over `chunk_type.bytes ++ data` and
stores it. -/
def new (chunk_type : ChunkType) (data : List Nat) : Chunk :=
  { data, chunk_type, crc := crc32 (chunk_type.bytes ++ data) }

/-- Accessor `Chunk::length`: `self.data.len() as u32`. -/
def length (c : Chunk) : Nat :=
  c.data.length % 2 ^ 32

/-- Serializer `Chunk::as_bytes`:
`length(BE) ++ chunk_type.bytes ++ data ++ crc(BE)` with the length field
being `self.data.len() as u32`. -/
def as_bytes (c : Chunk) : List Nat :=
  u32be (c.data.length % 2 ^ 32) ++ c.chunk_type.bytes ++ c.data ++ u32be c.crc

end Chunk

/-- Enum `ChunkParserError` from `src/chunk.rs`.  `ReaderError` models the
`io::Error` variant produced by a failing `read_exact`. -/
inductive ChunkParserError where
  | ReaderError
  | Incomplete
  | InvalidLengthField (expected : Nat) (found : Nat)
  | InvalidChunkType (e : ChunkTypeError)
  | InvalidChecksum
deriving DecidableEq, Repr

/-- Constant `MIN_CHUNK_SIZE` from `src/chunk.rs`. -/
def MIN_CHUNK_SIZE : Nat := 12

/-- Rust `impl TryFrom<&[u8]> for Chunk` (`src/chunk.rs`), statement for
statement:
reject slices shorter than 12 (`Incomplete`); read the 4-byte big-endian
length field; compare it against `value.len() as u32 - MIN_CHUNK_SIZE`
(wrapping `u32` subtraction); read and validate the 4 type bytes; read
`data_lenght` data bytes; read the 4-byte big-endian CRC field; rebuild the
chunk with `Chunk::new` and compare the stored CRC against the recomputed
one.  Each `read_exact` is modelled with its failure branch
(`ReaderError`) taken exactly when fewer bytes remain than requested. -/
def Chunk.try_from (value : List Nat) : Except ChunkParserError Chunk :=
  if value.length < 12 then .error .Incomplete
  else if value.length < 4 then .error .ReaderError
  else
    let data_lenght := u32beVal (value.take 4)
    if (value.length % 2 ^ 32 + 2 ^ 32 - MIN_CHUNK_SIZE) % 2 ^ 32 ≠ data_lenght then
      .error (.InvalidLengthField ((value.length % 2 ^ 32 + 2 ^ 32 - 12) % 2 ^ 32) data_lenght)
    else if (value.drop 4).length < 4 then .error .ReaderError
    else
      match ChunkType.try_from ((value.drop 4).take 4) with
      | .error e => .error (.InvalidChunkType e)
      | .ok chunk_type =>
        if (value.drop 8).length < data_lenght then .error .ReaderError
        else
          let data_buffer := (value.drop 8).take data_lenght
          if ((value.drop 8).drop data_lenght).length < 4 then .error .ReaderError
          else
            let crc := u32beVal (((value.drop 8).drop data_lenght).take 4)
            let chunk := Chunk.new chunk_type data_buffer
            if crc ≠ chunk.crc then .error .InvalidChecksum
            else .ok chunk

/-- The `"RuSt"` chunk type of the repository tests: bytes `[82,117,83,116]`. -/
def rustType : ChunkType := ⟨[82, 117, 83, 116]⟩

/-- The payload `"This is where your secret message will be!"` of the
repository tests, as its 42 ASCII bytes. -/
def secretMessage : List Nat :=
  [84, 104, 105, 115, 32, 105, 115, 32, 119, 104, 101, 114, 101, 32, 121,
   111, 117, 114, 32, 115, 101, 99, 114, 101, 116, 32, 109, 101, 115, 115,
   97, 103, 101, 32, 119, 105, 108, 108, 32, 98, 101, 33]

/-- The valid 54-byte test frame of the repository tests:
`42(BE) ++ "RuSt" ++ secret message ++ 2882656334(BE)`. -/
def testFrame : List Nat :=
  u32be 42 ++ (rustType.bytes ++ (secretMessage ++ u32be 2882656334))

/-- The corrupted test frame, with the crc field off by one: `2882656333`. -/
def badFrame : List Nat :=
  u32be 42 ++ (rustType.bytes ++ (secretMessage ++ u32be 2882656333))

/-! ### Basic facts about the byte-level encoders -/

theorem u32be_length (n : Nat) : (u32be n).length = 4 := rfl

theorem u32beVal_u32be (n : Nat) : u32beVal (u32be n) = n % 2 ^ 32 := by
  simp only [u32be, u32beVal]
  omega

theorem u32beVal_lt (bs : List Nat) (h : ∀ b ∈ bs, b < 256) : u32beVal bs < 2 ^ 32 := by
  match bs with
  | [] => simp [u32beVal]
  | [_] => simp [u32beVal]
  | [_, _] => simp [u32beVal]
  | [_, _, _] => simp [u32beVal]
  | b0 :: b1 :: b2 :: b3 :: rest =>
    have h0 := h b0 (by simp)
    have h1 := h b1 (by simp)
    have h2 := h b2 (by simp)
    have h3 := h b3 (by simp)
    simp only [u32beVal]
    omega

theorem isAsciiAlphabetic_lt {b : Nat} (h : isAsciiAlphabetic b = true) : b < 256 := by
  simp only [isAsciiAlphabetic, Bool.or_eq_true, Bool.and_eq_true, decide_eq_true_eq] at h
  omega

/-! ### The CRC-32 state stays below `2 ^ 32` on byte input -/

theorem crc32Bit_lt {c : Nat} (h : c < 2 ^ 32) : crc32Bit c < 2 ^ 32 := by
  have h1 : c >>> 1 < 2 ^ 32 := by
    rw [Nat.shiftRight_eq_div_pow]
    exact lt_of_le_of_lt (Nat.div_le_self _ _) h
  unfold crc32Bit
  split
  · exact Nat.xor_lt_two_pow h1 (by norm_num)
  · exact h1

theorem crc32Byte_lt {crc b : Nat} (hc : crc < 2 ^ 32) (hb : b < 256) :
    crc32Byte crc b < 2 ^ 32 := by
  have h0 : crc ^^^ b < 2 ^ 32 :=
    Nat.xor_lt_two_pow hc (lt_trans hb (by norm_num))
  unfold crc32Byte
  exact crc32Bit_lt (crc32Bit_lt (crc32Bit_lt (crc32Bit_lt
    (crc32Bit_lt (crc32Bit_lt (crc32Bit_lt (crc32Bit_lt h0)))))))

theorem crc32_foldl_lt (l : List Nat) (crc : Nat) (hc : crc < 2 ^ 32)
    (h : ∀ b ∈ l, b < 256) : l.foldl crc32Byte crc < 2 ^ 32 := by
  induction l generalizing crc with
  | nil => exact hc
  | cons b l ih =>
    simp only [List.foldl_cons]
    exact ih _ (crc32Byte_lt hc (h b (by simp))) (fun x hx => h x (by simp [hx]))

theorem crc32_lt (l : List Nat) (h : ∀ b ∈ l, b < 256) : crc32 l < 2 ^ 32 := by
  unfold crc32
  exact Nat.xor_lt_two_pow (crc32_foldl_lt l _ (by norm_num) h) (by norm_num)

/-! ### Unfolding equation for `ChunkType.try_from` -/

theorem ChunkType.try_from_eq (value : List Nat) :
    ChunkType.try_from value =
      if value.all isAsciiAlphabetic then .ok ⟨value⟩ else .error .NotASCIILetters := by
  unfold ChunkType.try_from
  cases value.all isAsciiAlphabetic <;> simp

/-- Parsing a well-formed frame `length ++ type ++ data ++ crc` succeeds and
returns exactly the frame components. -/
theorem Chunk.try_from_wellformed (tb d : List Nat) (cr : Nat)
    (htb : tb.length = 4) (ha : tb.all isAsciiAlphabetic = true)
    (hlen : d.length < 2 ^ 32) (hcr : cr < 2 ^ 32)
    (hcrc : cr = crc32 (tb ++ d)) :
    Chunk.try_from (u32be d.length ++ (tb ++ (d ++ u32be cr)))
      = .ok { data := d, chunk_type := ⟨tb⟩, crc := cr } := by
  have hu4 : (u32be d.length).length = 4 := rfl
  have hu4c : (u32be cr).length = 4 := rfl
  have hvlen : (u32be d.length ++ (tb ++ (d ++ u32be cr))).length = d.length + 12 := by
    simp only [List.length_append, hu4, hu4c, htb]
    omega
  have htake4 : (u32be d.length ++ (tb ++ (d ++ u32be cr))).take 4 = u32be d.length :=
    List.take_left' hu4
  have hdrop4 : (u32be d.length ++ (tb ++ (d ++ u32be cr))).drop 4
      = tb ++ (d ++ u32be cr) :=
    List.drop_left' hu4
  have htb4 : (tb ++ (d ++ u32be cr)).take 4 = tb := List.take_left' htb
  have hassoc : u32be d.length ++ (tb ++ (d ++ u32be cr))
      = (u32be d.length ++ tb) ++ (d ++ u32be cr) := by
    simp [List.append_assoc]
  have hdrop8 : (u32be d.length ++ (tb ++ (d ++ u32be cr))).drop 8
      = d ++ u32be cr := by
    rw [hassoc]
    exact List.drop_left' (by simp only [List.length_append, hu4, htb])
  have hdtake : (d ++ u32be cr).take d.length = d := List.take_left' rfl
  have hddrop : (d ++ u32be cr).drop d.length = u32be cr := List.drop_left' rfl
  have hlapp : (d ++ u32be cr).length = d.length + 4 := by
    simp only [List.length_append, hu4c]
  simp only [Chunk.try_from]
  rw [htake4, u32beVal_u32be, Nat.mod_eq_of_lt hlen, hvlen, hdrop4, htb4, hdrop8]
  rw [if_neg (by omega), if_neg (by omega),
    if_neg (by unfold MIN_CHUNK_SIZE; omega),
    if_neg (by rw [List.length_append, hlapp, htb]; omega)]
  rw [ChunkType.try_from_eq, if_pos ha]
  dsimp only
  rw [if_neg (by rw [hlapp]; omega)]
  rw [hdtake, hddrop]
  rw [if_neg (by rw [hu4c]; omega)]
  rw [List.take_of_length_le (Nat.le_of_eq hu4c)]
  rw [u32beVal_u32be, Nat.mod_eq_of_lt hcr]
  rw [if_neg (by simp [Chunk.new, ← hcrc])]
  simp [Chunk.new, hcrc]

/-- Inversion: what a successful `Chunk::try_from` tells us about its input
and its result. -/
theorem Chunk.try_from_ok_inv {v : List Nat} {c : Chunk}
    (h : Chunk.try_from v = .ok c) :
    12 ≤ v.length ∧
    ((v.drop 4).take 4).all isAsciiAlphabetic = true ∧
    u32beVal (v.take 4) = (v.length % 2 ^ 32 + 2 ^ 32 - 12) % 2 ^ 32 ∧
    c = Chunk.new ⟨(v.drop 4).take 4⟩ ((v.drop 8).take (u32beVal (v.take 4))) := by
  simp only [Chunk.try_from, MIN_CHUNK_SIZE] at h
  split_ifs at h
  all_goals split at h
  all_goals try (exact Except.noConfusion h)
  all_goals rename_i ct heq
  all_goals split_ifs at h
  all_goals rw [ChunkType.try_from_eq] at heq
  all_goals split_ifs at heq with hall
  all_goals injection heq with heq
  all_goals injection h with h
  all_goals subst h
  all_goals subst heq
  all_goals exact ⟨by omega, hall, by omega, rfl⟩

/-- Round-trip helper: `Chunk::try_from` recovers any chunk built by
`Chunk::new` from a valid chunk type and a payload of fewer than `2 ^ 32`
bytes. -/
theorem Chunk.try_from_new (t : ChunkType) (d : List Nat)
    (ht : t.bytes.length = 4) (ha : t.bytes.all isAsciiAlphabetic = true)
    (hd : ∀ b ∈ d, b < 256) (hlen : d.length < 2 ^ 32) :
    Chunk.try_from ((Chunk.new t d).as_bytes) = .ok (Chunk.new t d) := by
  have hball : ∀ b ∈ t.bytes ++ d, b < 256 := by
    intro b hb
    rcases List.mem_append.mp hb with h' | h'
    · exact isAsciiAlphabetic_lt (List.all_eq_true.mp ha b h')
    · exact hd b h'
  have hcr : crc32 (t.bytes ++ d) < 2 ^ 32 := crc32_lt _ hball
  have habytes : (Chunk.new t d).as_bytes
      = u32be d.length ++ (t.bytes ++ (d ++ u32be (crc32 (t.bytes ++ d)))) := by
    simp only [Chunk.as_bytes, Chunk.new, Nat.mod_eq_of_lt hlen, List.append_assoc]
  rw [habytes, Chunk.try_from_wellformed t.bytes d (crc32 (t.bytes ++ d)) ht ha hlen hcr rfl]
  rfl

/-- C4: `ChunkType::try_from` on a 4-byte array fails with the
not-ASCII-letters error (the spec's `InvalidTypeCode`) when any byte is not
an ASCII letter, and succeeds with exactly those 4 bytes when all four are
ASCII letters. -/
theorem C4_chunk_type_from_bytes (bs : List Nat) (h : bs.length = 4) :
    ((∃ b ∈ bs, ¬ isAsciiAlphabetic b = true) →
      ChunkType.try_from bs = .error .NotASCIILetters) ∧
    ((∀ b ∈ bs, isAsciiAlphabetic b = true) →
      ChunkType.try_from bs = .ok ⟨bs⟩) := by
  constructor
  · intro ⟨b, hb, hba⟩
    rw [ChunkType.try_from_eq, if_neg]
    simp only [List.all_eq_true]
    intro hall
    exact hba (hall b hb)
  · intro hall
    rw [ChunkType.try_from_eq, if_pos (List.all_eq_true.mpr hall)]

theorem C4_witness :
    ChunkType.try_from [82, 117, 83, 116] = .ok ⟨[82, 117, 83, 116]⟩ ∧
    ChunkType.try_from [82, 117, 49, 116] = .error .NotASCIILetters :=
  ⟨(C4_chunk_type_from_bytes [82, 117, 83, 116] (by decide)).2 (by decide),
   (C4_chunk_type_from_bytes [82, 117, 49, 116] (by decide)).1
     ⟨49, by decide, by decide⟩⟩

/-- C6: each property accessor tests bit 5 (mask `0x20`) of its positional
byte — `is_critical`/`is_public`/`is_reserved_bit_valid` are true when the
bit is clear, `is_safe_to_copy` when it is set — and on the `"RuSt"` type
(bytes `[82,117,83,116]`) they return `true, false, true, true`. -/
theorem C6_bit_flags (b0 b1 b2 b3 : Nat) :
    (ChunkType.is_critical ⟨[b0, b1, b2, b3]⟩ = (b0 &&& 32 == 0)) ∧
    (ChunkType.is_public ⟨[b0, b1, b2, b3]⟩ = (b1 &&& 32 == 0)) ∧
    (ChunkType.is_reserved_bit_valid ⟨[b0, b1, b2, b3]⟩ = (b2 &&& 32 == 0)) ∧
    (ChunkType.is_safe_to_copy ⟨[b0, b1, b2, b3]⟩ = !(b3 &&& 32 == 0)) ∧
    ChunkType.is_critical rustType = true ∧
    ChunkType.is_public rustType = false ∧
    ChunkType.is_reserved_bit_valid rustType = true ∧
    ChunkType.is_safe_to_copy rustType = true :=
  ⟨rfl, rfl, rfl, rfl, by decide, by decide, by decide, by decide⟩

/-- C7: `Chunk::new` on the `"RuSt"` type and the 42-byte test payload
computes crc `2882656334`, and its length is the byte count of the payload. -/
theorem C7_crc_worked_example :
    (Chunk.new rustType secretMessage).crc = 2882656334 ∧
    (Chunk.new rustType secretMessage).length = secretMessage.length ∧
    secretMessage.length = 42 := by
  refine ⟨?_, rfl, rfl⟩
  simp [Chunk.new, crc32, crc32Byte, crc32Bit, secretMessage, rustType]

/-- C8: every slice shorter than the 12-byte minimum frame is rejected with
`Incomplete`. -/
theorem C8_incomplete (v : List Nat) (h : v.length < 12) :
    Chunk.try_from v = .error .Incomplete := by
  simp only [Chunk.try_from]
  rw [if_pos h]

theorem C8_witness : Chunk.try_from [] = .error .Incomplete :=
  C8_incomplete [] (by decide)

/-- C5: the crc field of every chunk — built by `Chunk::new` or returned by
a successful `Chunk::try_from` — is the CRC-32 (ISO-HDLC) of the 4 type
bytes followed by the data bytes. -/
theorem C5_crc_invariant (t : ChunkType) (d : List Nat) (v : List Nat) (c : Chunk) :
    (Chunk.new t d).crc = crc32 (t.bytes ++ d) ∧
    (Chunk.try_from v = .ok c → c.crc = crc32 (c.chunk_type.bytes ++ c.data)) := by
  refine ⟨rfl, fun h => ?_⟩
  obtain ⟨-, -, -, rfl⟩ := Chunk.try_from_ok_inv h
  rfl

theorem C5_witness :
    (Chunk.new rustType secretMessage).crc = crc32 (rustType.bytes ++ secretMessage) ∧
    (Chunk.new rustType secretMessage).crc
      = crc32 ((Chunk.new rustType secretMessage).chunk_type.bytes
          ++ (Chunk.new rustType secretMessage).data) :=
  ⟨(C5_crc_invariant rustType secretMessage testFrame (Chunk.new rustType secretMessage)).1,
   (C5_crc_invariant rustType secretMessage testFrame (Chunk.new rustType secretMessage)).2
     (by simp [testFrame, Chunk.try_from, Chunk.new, ChunkType.try_from, u32be, u32beVal,
       crc32, crc32Byte, crc32Bit, isAsciiAlphabetic, secretMessage, rustType,
       MIN_CHUNK_SIZE])⟩

/-- C2: on a frame of length ≥ 12 whose length field matches
`slice.len() - 12` and whose type bytes are ASCII letters, `Chunk::try_from`
fails with `InvalidChecksum` (the spec's `ChecksumMismatch`) when the
CRC-32 recomputed over `type ++ data` differs from the trailing 4-byte
big-endian field, and on success the crc of the returned chunk is the recomputed
value. -/
theorem C2_checksum_mismatch (v : List Nat)
    (h12 : 12 ≤ v.length)
    (hbytes : ∀ b ∈ v, b < 256)
    (hfield : u32beVal (v.take 4) = v.length - 12)
    (htype : ((v.drop 4).take 4).all isAsciiAlphabetic = true) :
    (crc32 ((v.drop 4).take 4 ++ (v.drop 8).take (v.length - 12))
        ≠ u32beVal (v.drop (v.length - 4)) →
      Chunk.try_from v = .error .InvalidChecksum) ∧
    (∀ c, Chunk.try_from v = .ok c →
      c.crc = crc32 ((v.drop 4).take 4 ++ (v.drop 8).take (v.length - 12))) := by
  constructor
  · intro hne
    have hflt : v.length - 12 < 2 ^ 32 := by
      have := u32beVal_lt (v.take 4) (fun b hb => hbytes b (List.mem_of_mem_take hb))
      omega
    have harith : 8 + (v.length - 12) = v.length - 4 := by omega
    have hdd : (v.drop 8).drop (v.length - 12) = v.drop (v.length - 4) := by
      rw [List.drop_drop, harith]
    have hl4 : (v.drop (v.length - 4)).length = 4 := by
      rw [List.length_drop]
      omega
    have htk : (v.drop (v.length - 4)).take 4 = v.drop (v.length - 4) :=
      List.take_of_length_le (le_of_eq hl4)
    simp only [Chunk.try_from, MIN_CHUNK_SIZE]
    rw [hfield]
    rw [if_neg (by omega), if_neg (by omega), if_neg (by omega),
      if_neg (by rw [List.length_drop]; omega)]
    split
    next e heq =>
      rw [ChunkType.try_from_eq, if_pos htype] at heq
      exact Except.noConfusion heq
    next ct heq =>
      rw [ChunkType.try_from_eq, if_pos htype] at heq
      injection heq with heq
      subst heq
      rw [if_neg (by rw [List.length_drop]; omega)]
      rw [hdd, if_neg (by rw [hl4]; omega), htk]
      rw [if_pos (show u32beVal (v.drop (v.length - 4))
        ≠ (Chunk.new ⟨(v.drop 4).take 4⟩ ((v.drop 8).take (v.length - 12))).crc
        from Ne.symm hne)]
  · intro c hok
    obtain ⟨-, -, -, rfl⟩ := Chunk.try_from_ok_inv hok
    simp only [Chunk.new, hfield]

theorem C2_witness :
    Chunk.try_from badFrame = .error .InvalidChecksum ∧
    (Chunk.new rustType secretMessage).crc
      = crc32 ((testFrame.drop 4).take 4
          ++ (testFrame.drop 8).take (testFrame.length - 12)) :=
  ⟨(C2_checksum_mismatch badFrame (by decide) (by decide) (by decide) (by decide)).1
     (by simp [badFrame, crc32, crc32Byte, crc32Bit, u32be, u32beVal,
       secretMessage, rustType]),
   (C2_checksum_mismatch testFrame (by decide) (by decide) (by decide) (by decide)).2
     (Chunk.new rustType secretMessage)
     (by simp [testFrame, Chunk.try_from, Chunk.new, ChunkType.try_from, u32be, u32beVal,
       crc32, crc32Byte, crc32Bit, isAsciiAlphabetic, secretMessage, rustType,
       MIN_CHUNK_SIZE])⟩

/-- C3 (amended): for slices of length `L` with `12 ≤ L < 2 ^ 32 + 12`, a
length field different from `L - 12` yields
`InvalidLengthField (expected := L - 12) (found := field)` (the spec's
`LengthMismatch`). -/
theorem C3_length_mismatch (v : List Nat)
    (h12 : 12 ≤ v.length) (hsmall : v.length < 2 ^ 32 + 12)
    (hbytes : ∀ b ∈ v, b < 256)
    (hne : u32beVal (v.take 4) ≠ v.length - 12) :
    Chunk.try_from v
      = .error (.InvalidLengthField (v.length - 12) (u32beVal (v.take 4))) := by
  have hflt : u32beVal (v.take 4) < 2 ^ 32 :=
    u32beVal_lt _ (fun b hb => hbytes b (List.mem_of_mem_take hb))
  have hexp : (v.length % 2 ^ 32 + 2 ^ 32 - 12) % 2 ^ 32 = v.length - 12 := by
    omega
  simp only [Chunk.try_from, MIN_CHUNK_SIZE]
  rw [hexp]
  rw [if_neg (by omega), if_neg (by omega), if_pos (Ne.symm hne)]

theorem C3_witness :
    Chunk.try_from (List.replicate 13 0) = .error (.InvalidLengthField 1 0) :=
  C3_length_mismatch (List.replicate 13 0) (by decide) (by decide) (by decide)
    (by decide)

/-- C3 counterexample: on the `2 ^ 32 + 12`-byte all-zero slice the declared
length field (`0`) differs from `slice.len() - 12` (`2 ^ 32`), yet the
parser does not return a length-mismatch error — the wrapping `as u32` cast
makes the length check pass and parsing fails on the type code instead. -/
theorem C3_counterexample :
    Chunk.try_from (List.replicate (2 ^ 32 + 12) 0)
        = .error (.InvalidChunkType .NotASCIILetters) ∧
    Chunk.try_from (List.replicate (2 ^ 32 + 12) 0)
        ≠ .error (.InvalidLengthField (2 ^ 32) 0) := by
  have hlen : (List.replicate (2 ^ 32 + 12) (0 : Nat)).length = 2 ^ 32 + 12 :=
    List.length_replicate _ _
  have ht4 : (List.replicate (2 ^ 32 + 12) (0 : Nat)).take 4 = List.replicate 4 0 := by
    rw [List.take_replicate]
    norm_num
  have hd4 : (List.replicate (2 ^ 32 + 12) (0 : Nat)).drop 4
      = List.replicate (2 ^ 32 + 8) 0 := by
    rw [List.drop_replicate]
    norm_num
  have ht4' : (List.replicate (2 ^ 32 + 8) (0 : Nat)).take 4 = List.replicate 4 0 := by
    rw [List.take_replicate]
    norm_num
  have hval : u32beVal (List.replicate 4 0) = 0 := by decide
  have hmain : Chunk.try_from (List.replicate (2 ^ 32 + 12) 0)
      = .error (.InvalidChunkType .NotASCIILetters) := by
    have hm : MIN_CHUNK_SIZE = 12 := rfl
    rw [Chunk.try_from.eq_1, hm, hlen, ht4, hval, hd4, ht4']
    rw [if_neg (by omega), if_neg (by omega), if_neg (by omega),
      if_neg (by rw [List.length_replicate]; omega)]
    rw [ChunkType.try_from_eq, if_neg (by decide)]
  refine ⟨hmain, ?_⟩
  rw [hmain]
  intro hcontra
  injection hcontra with hcontra
  cases hcontra

/-- The data stored by `Chunk::new` is exactly the given payload. -/
theorem Chunk.data_new (t : ChunkType) (d : List Nat) : (Chunk.new t d).data = d := rfl

/-- C1 (amended): serialization followed by parsing is the identity on every
chunk built by `Chunk::new` from a valid 4-byte type and a payload of fewer
than `2 ^ 32` bytes, and on every chunk returned by a successful
`Chunk::try_from` of a byte slice. -/
theorem C1_parse_serialize_roundtrip (t : ChunkType) (d : List Nat)
    (v : List Nat) (c : Chunk)
    (ht : t.bytes.length = 4) (ha : t.bytes.all isAsciiAlphabetic = true)
    (hd : ∀ b ∈ d, b < 256) (hlen : d.length < 2 ^ 32)
    (hv : ∀ b ∈ v, b < 256) :
    Chunk.try_from ((Chunk.new t d).as_bytes) = .ok (Chunk.new t d) ∧
    (Chunk.try_from v = .ok c → Chunk.try_from c.as_bytes = .ok c) := by
  refine ⟨Chunk.try_from_new t d ht ha hd hlen, fun hok => ?_⟩
  obtain ⟨h12, hall, hdl, rfl⟩ := Chunk.try_from_ok_inv hok
  have hdlt : u32beVal (v.take 4) < 2 ^ 32 := by
    rw [hdl]
    exact Nat.mod_lt _ (by norm_num)
  refine Chunk.try_from_new _ _ ?_ hall ?_ ?_
  · rw [List.length_take, List.length_drop]
    omega
  · intro b hb
    exact hv b (List.mem_of_mem_drop (List.mem_of_mem_take hb))
  · rw [List.length_take]
    omega

theorem C1_witness :
    Chunk.try_from ((Chunk.new rustType secretMessage).as_bytes)
      = .ok (Chunk.new rustType secretMessage) :=
  (C1_parse_serialize_roundtrip rustType secretMessage testFrame
    (Chunk.new rustType secretMessage) rfl (by decide) (by decide) (by decide)
    (by decide)).1

/-- C1 counterexample: the round-trip law fails for the chunk built by
`Chunk::new` from type `"RuSt"` and a payload of exactly `2 ^ 32` zero
bytes — `length as u32` wraps to `0` in the serialized frame, so re-parsing
cannot return the original chunk (the payload of a parsed chunk is always
shorter than `2 ^ 32` bytes). -/
theorem C1_counterexample :
    Chunk.try_from ((Chunk.new rustType (List.replicate (2 ^ 32) 0)).as_bytes)
      ≠ .ok (Chunk.new rustType (List.replicate (2 ^ 32) 0)) := by
  intro h
  obtain ⟨-, -, hdl, hc⟩ := Chunk.try_from_ok_inv h
  have h3 := congrArg List.length (congrArg Chunk.data hc)
  rw [Chunk.data_new, Chunk.data_new, List.length_replicate, List.length_take] at h3
  have h4 : ((Chunk.new rustType (List.replicate (2 ^ 32) 0)).as_bytes.length % 2 ^ 32
      + 2 ^ 32 - 12) % 2 ^ 32 < 2 ^ 32 := Nat.mod_lt _ (by norm_num)
  omega

/-- C9: `Chunk::try_from` is total — on every byte slice it returns either a
chunk or one of the four parser errors, and the reader-failure branch
(`ReaderError`, the `io::Error` of a failing `read_exact`) is unreachable:
once the length-field check passes, every read is within bounds. -/
theorem C9_total_no_reader_error (v : List Nat) :
    Chunk.try_from v ≠ .error .ReaderError ∧
    (Chunk.try_from v = .error .Incomplete ∨
     (∃ e f, Chunk.try_from v = .error (.InvalidLengthField e f)) ∨
     (∃ e, Chunk.try_from v = .error (.InvalidChunkType e)) ∨
     Chunk.try_from v = .error .InvalidChecksum ∨
     (∃ c, Chunk.try_from v = .ok c)) := by
  have hmain : Chunk.try_from v ≠ .error .ReaderError := by
    intro hcontra
    simp only [Chunk.try_from, MIN_CHUNK_SIZE] at hcontra
    split_ifs at hcontra
    all_goals try (injection hcontra with hcontra; cases hcontra)
    all_goals try (split at hcontra)
    all_goals try (split_ifs at hcontra)
    all_goals try (injection hcontra with hcontra; cases hcontra)
    all_goals simp only [List.length_drop] at *
    all_goals omega
  refine ⟨hmain, ?_⟩
  cases hres : Chunk.try_from v with
  | ok c => exact Or.inr (Or.inr (Or.inr (Or.inr ⟨c, rfl⟩)))
  | error e =>
    cases e with
    | ReaderError => exact absurd hres hmain
    | Incomplete => exact Or.inl rfl
    | InvalidLengthField a b => exact Or.inr (Or.inl ⟨a, b, rfl⟩)
    | InvalidChunkType e => exact Or.inr (Or.inr (Or.inl ⟨e, rfl⟩))
    | InvalidChecksum => exact Or.inr (Or.inr (Or.inr (Or.inl rfl)))

/-- C10: `Chunk::length` is the payload byte count reduced modulo `2 ^ 32`
(`len as u32`), `Chunk::as_bytes` writes this same reduced value as the
4-byte length field, the two agree with the exact count below `2 ^ 32`,
and for the `2 ^ 32`-byte payload the serialized length field (`0`) differs
from the byte count of the payload. -/
theorem C10_length_as_u32 (c : Chunk) :
    c.length = c.data.length % 2 ^ 32 ∧
    c.as_bytes.take 4 = u32be (c.data.length % 2 ^ 32) ∧
    (c.data.length < 2 ^ 32 → c.length = c.data.length) ∧
    (Chunk.new rustType (List.replicate (2 ^ 32) 0)).length = 0 ∧
    u32beVal ((Chunk.new rustType (List.replicate (2 ^ 32) 0)).as_bytes.take 4) = 0 ∧
    (List.replicate (2 ^ 32) (0 : Nat)).length = 2 ^ 32 := by
  have htake : ∀ c' : Chunk, c'.as_bytes.take 4 = u32be (c'.data.length % 2 ^ 32) := by
    intro c'
    simp only [Chunk.as_bytes, List.append_assoc]
    exact List.take_left' rfl
  have hbig : (Chunk.new rustType (List.replicate (2 ^ 32) 0)).data.length = 2 ^ 32 := by
    rw [Chunk.data_new, List.length_replicate]
  have hlen_def : ∀ c' : Chunk, c'.length = c'.data.length % 2 ^ 32 := fun _ => rfl
  refine ⟨rfl, htake c, fun h => ?_, ?_, ?_, List.length_replicate _ _⟩
  · unfold Chunk.length
    rw [Nat.mod_eq_of_lt h]
  · rw [hlen_def, hbig]
    norm_num
  · rw [htake, hbig, u32beVal_u32be]
    norm_num

theorem C10_witness :
    (Chunk.new rustType secretMessage).length
      = (Chunk.new rustType secretMessage).data.length :=
  (C10_length_as_u32 (Chunk.new rustType secretMessage)).2.2.1 (by decide)

end Pngme
